import Mathlib

/-!
Verification development for the financial-statement extraction pipeline
implemented in `AWS/app/main.py`.

Modelling conventions:
* Text is modelled as `List Char`; money values as exact rationals (`ℚ`).
* Calls into external libraries (the `re` regex engine applied to the
  configurable taxonomy patterns, the `rapidfuzz` similarity scorer, and the
  `NUM_RE` numeric tokenizer) are abstracted as function parameters of an
  `Env` record, because the taxonomy configuration (`taxonomy.json`) is not
  part of the source tree and those libraries are external collaborators.
  The regular expressions that appear literally in the source
  (`YEAR_RE`, the `(note N)` stripper, the whitespace collapser) are
  implemented concretely, following Python `re` semantics for those patterns.
* Python `float` arithmetic is modelled by exact rational arithmetic;
  `round(x, 2)` is modelled as round-half-to-even at two decimals.
* A Python expression that can raise (`float(tok)` on a malformed string) is
  modelled with `Option`; at the call site inside the line loop the `none`
  case is defaulted (it is unreachable for tokens produced by `NUM_RE`,
  every one of which contains a digit and parses).
-/

namespace CashFlow

/-! ## Character classes (ASCII models of Python `str` predicates) -/

/-- Python whitespace characters recognised by `str.strip()` / `\s`. -/
def isPySpace (c : Char) : Bool :=
  c = ' ' || c = '\t' || c = '\n' || c = '\r' || c = Char.ofNat 11 || c = Char.ofNat 12

/-- ASCII digit test, the model of the regex class `\d`. -/
def isDig (c : Char) : Bool :=
  48 ≤ c.toNat && c.toNat ≤ 57

/-- ASCII letter test. -/
def isLetterB (c : Char) : Bool :=
  (65 ≤ c.toNat && c.toNat ≤ 90) || (97 ≤ c.toNat && c.toNat ≤ 122)

/-- Word character, the model of the regex class `\w` (letters, digits, `_`). -/
def isWordChar (c : Char) : Bool :=
  isLetterB c || isDig c || c = '_'

/-- Numeric value of a digit character. -/
def digitVal (c : Char) : ℕ := c.toNat - 48

/-! ## Edge stripping (Python `str.strip`) -/

/-- Remove the characters satisfying `p` from both ends of a string,
the model of Python `str.strip(chars)`. -/
def stripEnds (p : Char → Bool) (l : List Char) : List Char :=
  ((l.dropWhile p).reverse.dropWhile p).reverse

/-- Python `str.strip()` (whitespace strip). -/
def pyStripWs (l : List Char) : List Char := stripEnds isPySpace l

/-- The character set of `tok.strip("()$ ")` in `parse_money`. -/
def isParenDollarSpace (c : Char) : Bool :=
  c = '(' || c = ')' || c = '$' || c = ' '

/-- Lower-casing of a string (Python `str.lower`, ASCII model). -/
def lowerL (l : List Char) : List Char := l.map Char.toLower

/-! ## Decimal parsing (model of Python `float(...)` on decimal strings) -/

/-- Value of a digit string read left to right. -/
def digitsVal (l : List Char) : ℕ := l.foldl (fun a c => 10 * a + digitVal c) 0

/-- Unsigned decimal parse: `123`, `123.`, `.5`, `1.5`.  Returns `none` on any
other shape (the model of `float` raising `ValueError`). -/
def pyFloatUnsigned (s : List Char) : Option ℚ :=
  let ip := s.takeWhile isDig
  let rest := s.dropWhile isDig
  match rest with
  | [] => if ip = [] then none else some (digitsVal ip)
  | '.' :: fp =>
      if fp.all isDig && (!ip.isEmpty || !fp.isEmpty) then
        some ((digitsVal ip : ℚ) + (digitsVal fp : ℚ) / (10 : ℚ) ^ fp.length)
      else none
  | _ => none

/-- Signed decimal parse, the model of Python `float` on the token shapes that
reach it in this program. -/
def pyFloat (s : List Char) : Option ℚ :=
  match s with
  | '-' :: rest => (pyFloatUnsigned rest).map Neg.neg
  | '+' :: rest => pyFloatUnsigned rest
  | _ => pyFloatUnsigned s

/-! ## `parse_money` (source lines 36–42) -/

/-- Model of `parse_money`.  `none` models a `ValueError` escaping `float`. -/
def parse_moneyQ (tok : List Char) : Option ℚ :=
  let t := pyStripWs tok
  let neg := t.head? = some '(' ∧ t.getLast? = some ')'
  let core := (stripEnds isParenDollarSpace tok).filter (fun c => c ≠ ',')
  if core = [] ∨ core = ['-'] then some 0
  else (pyFloat core).map (fun v => if neg then -v else v)

/-- Modelled from the spec (§4.3 money parsing): a token wrapped in matching
parentheses denotes a negative value; strip parentheses, dollar signs and
surrounding space, strip thousands-separator commas; an empty or lone-dash
remainder parses to `0.0`; otherwise parse as a signed decimal and negate if
the parenthesis flag was set. -/
def parse_money_specQ (tok : List Char) : Option ℚ :=
  let stripped := pyStripWs tok
  let parenFlag := stripped.head? = some '(' ∧ stripped.getLast? = some ')'
  let remainder := (stripEnds isParenDollarSpace tok).filter (fun c => c ≠ ',')
  if remainder = [] ∨ remainder = ['-'] then some 0
  else
    match pyFloat remainder with
    | some v => some (if parenFlag then -v else v)
    | none => none

/-! ## Label normalization (`norm_label`, source lines 30–34) -/

/-- Try to consume a `note\s*\d+)` suffix right after an opening parenthesis,
the tail of one occurrence of the pattern `\(note\s*\d+\)` (case-insensitive).
Returns the remainder after the closing parenthesis on success. -/
def tryNote (rest : List Char) : Option (List Char) :=
  match rest with
  | n :: o :: t :: e :: r =>
      if n.toLower = 'n' ∧ o.toLower = 'o' ∧ t.toLower = 't' ∧ e.toLower = 'e' then
        let r2 := r.dropWhile isPySpace
        let ds := r2.takeWhile isDig
        let r3 := r2.dropWhile isDig
        if ds ≠ [] ∧ r3.head? = some ')' then some r3.tail else none
      else none
  | _ => none

/-- Fuel-indexed scanner deleting every occurrence of `\(note\s*\d+\)`,
leftmost first, the model of `re.sub(r"\(note\s*\d+\)", "", s, re.I)`.
Each step consumes at least one character, so fuel `l.length` is enough. -/
def stripNotesF : ℕ → List Char → List Char
  | 0, l => l
  | _ + 1, [] => []
  | fuel + 1, c :: rest =>
      if c = '(' then
        match tryNote rest with
        | some rest2 => stripNotesF fuel rest2
        | none => c :: stripNotesF fuel rest
      else c :: stripNotesF fuel rest

def stripNotes (l : List Char) : List Char := stripNotesF l.length l

/-- The character replacements of line 32: `’ → '` and `— → -`. -/
def replSpecial (c : Char) : Char :=
  if c = '’' then '\'' else if c = '—' then '-' else c

mutual

/-- Collapse whitespace runs to a single space,
the model of `re.sub(r"\s+", " ", s)`. -/
def collapseWs : List Char → List Char
  | [] => []
  | c :: rest => if isPySpace c then ' ' :: collapseTail rest else c :: collapseWs rest

/-- Skip the rest of a whitespace run already emitted as one space. -/
def collapseTail : List Char → List Char
  | [] => []
  | c :: rest => if isPySpace c then collapseTail rest else c :: collapseWs rest

end

/-- The character set of `.strip(" :-–—")` on line 33. -/
def isLabelEdge (c : Char) : Bool :=
  c = ' ' || c = ':' || c = '-' || c = '–' || c = '—'

/-- Model of `norm_label` (source lines 30–34). -/
def norm_label (s : List Char) : List Char :=
  stripEnds isLabelEdge (collapseWs ((stripNotes s).map replSpecial))

/-! ## Taxonomy, fuzzy pool and canonical matching (source lines 68–89) -/

/-- One taxonomy descriptor: ordered synonyms and ordered regex patterns.
The taxonomy itself (`taxonomy.json`) is configuration outside the source
tree, so it stays abstract. -/
structure Desc where
  synonyms : List (List Char)
  regex : List (List Char)

/-- The abstracted external collaborators of the pipeline:
* `canon` — the taxonomy entries in iteration order (Python dict order);
* `research` — `re.search pattern label` on a taxonomy pattern, as a Boolean;
* `scorer` — `fuzz.token_sort_ratio`, a similarity score in `[0, 100]`;
* `tokens` — the list of `NUM_RE.finditer` matches of a line. -/
structure Env where
  canon : List (String × Desc)
  research : List Char → List Char → Bool
  scorer : List Char → List Char → ℕ
  tokens : List Char → List (List Char)

/-- The flat pool `FUZZY_CHOICES` (source lines 69–76): per entry, the
lower-cased synonyms then the lower-cased regex sources. -/
def fuzzyChoices (canon : List (String × Desc)) : List (List Char) :=
  canon.foldl
    (fun acc kd => acc ++ kd.2.synonyms.map lowerL ++ kd.2.regex.map lowerL) []

/-- The dictionary `CANON_KEY_FOR` as its assignment sequence (later
assignments shadow earlier ones, as in a Python dict). -/
def canonKeyFor (canon : List (String × Desc)) : List (List Char × String) :=
  canon.foldl
    (fun acc kd => acc ++ kd.2.synonyms.map (fun s => (lowerL s, kd.1))) []

/-- Lookup in an assignment sequence, last assignment winning
(Python `dict.get(k, None)`). -/
def dictGetLast (l : List (List Char × String)) (key : List Char) : Option String :=
  l.reverse.lookup key

/-- The regex pass of `match_canonical` (source lines 81–84): first taxonomy
entry, in iteration order, one of whose patterns matches the label. -/
def regexPassAux (research : List Char → List Char → Bool) :
    List (String × Desc) → List Char → Option String
  | [], _ => none
  | kd :: rest, lab =>
      if kd.2.regex.any (fun rx => research rx lab) then some kd.1
      else regexPassAux research rest lab

/-- The best fuzzy candidate, the model of
`process.extractOne(lab, FUZZY_CHOICES, scorer)`: highest score wins, the
first choice winning ties; `none` on an empty pool. -/
def extractOne (scorer : List Char → List Char → ℕ) (query : List Char) :
    List (List Char) → Option (List Char × ℕ) :=
  List.foldl
    (fun best c =>
      match best with
      | none => some (c, scorer query c)
      | some (b, s) => if s < scorer query c then some (c, scorer query c) else some (b, s))
    none

/-- Model of `match_canonical` (source lines 78–89) at the default
threshold 84. -/
def match_canonical (env : Env) (label : List Char) : Option String :=
  let lab := lowerL label
  match regexPassAux env.research env.canon lab with
  | some k => some k
  | none =>
      match extractOne env.scorer lab (fuzzyChoices env.canon) with
      | some bs => if 84 ≤ bs.2 then dictGetLast (canonKeyFor env.canon) bs.1 else none
      | none => none

/-- Modelled from the spec (§4.4 regex pass): the key of the first taxonomy
entry, in deterministic iteration order, one of whose regex patterns matches
the lower-cased label. -/
def firstRegexKey (env : Env) (lab : List Char) : Option String :=
  (env.canon.find? (fun kd => kd.2.regex.any (fun rx => env.research rx lab))).map
    Prod.fst

/-! ## Line tokenization helpers -/

/-- Everything before the first occurrence of `sep` in `l`, the model of
`l.split(sep)[0]` for a non-empty separator (the separators used here are
regex matches of the line, hence non-empty substrings). -/
def beforeFirst (l sep : List Char) : List Char :=
  match l with
  | [] => []
  | c :: rest => if sep.isPrefixOf l ∧ sep ≠ [] then [] else c :: beforeFirst rest sep

/-- Split a text into lines at `\n` or `\r`, the model of `str.splitlines`
on the texts of this pipeline (the extra empty pieces produced at `\r\n`
are skipped by the line loop anyway). -/
def splitLinesL (l : List Char) : List (List Char) :=
  match l with
  | [] => []
  | c :: rest =>
      if c = '\n' ∨ c = '\r' then [] :: splitLinesL rest
      else
        match splitLinesL rest with
        | [] => [[c]]
        | line :: more => (c :: line) :: more

/-! ## Year scanning (`YEAR_RE`, source line 22) -/

/-- `true` when an optional neighbouring character does not block a word
boundary: absent (text edge) or a non-word character. -/
def nonWordOpt : Option Char → Bool
  | none => true
  | some p => !isWordChar p

/-- The `\b` condition to the left of position `i`. -/
def bndBefore (s : List Char) (i : ℕ) : Bool :=
  match i with
  | 0 => true
  | k + 1 => nonWordOpt s[k]?

/-- First two characters of `(?:19|20)\d{2}`. -/
def yearHead (a b : Char) : Bool :=
  (a = '1' && b = '9') || (a = '2' && b = '0')

/-- Numeric value of four digit characters. -/
def yearVal (a b c d : Char) : ℕ :=
  1000 * digitVal a + 100 * digitVal b + 10 * digitVal c + digitVal d

/-- The match of `YEAR_RE` = `\b((?:19|20)\d{2})\b` anchored at position `i`
of `s`: the four characters, their classes, and the two word boundaries. -/
def yearAt (s : List Char) (i : ℕ) : Option ℕ :=
  match s[i]?, s[i+1]?, s[i+2]?, s[i+3]? with
  | some a, some b, some c, some d =>
      if yearHead a b && isDig c && isDig d && bndBefore s i && nonWordOpt s[i+4]? then
        some (yearVal a b c d)
      else none
  | _, _, _, _ => none

/-- Left-to-right non-overlapping scan of `YEAR_RE.findall`: `prev` is the
character just before the current position (`none` at the start of the
text).  On a match the scan resumes after its four characters. -/
def scanYears : Option Char → List Char → List ℕ
  | _, [] => []
  | prev, a :: b :: c :: d :: rest2 =>
      if yearHead a b && isDig c && isDig d && nonWordOpt prev && nonWordOpt rest2.head? then
        yearVal a b c d :: scanYears (some d) rest2
      else scanYears (some a) (b :: c :: d :: rest2)
  | _, a :: rest => scanYears (some a) rest

/-- `YEAR_RE.findall(s)` as integers. -/
def findYears (s : List Char) : List ℕ := scanYears none s

/-- `sorted(set(xs))` for integer lists. -/
def sortedDedup (l : List ℕ) : List ℕ :=
  List.insertionSort (· ≤ ·) l.dedup

/-- `period.year if period else datetime.date.today().year`; the period and
the current calendar year reach the parser as data, so they are parameters. -/
def fallbackYear (periodYear : Option ℕ) (todayYear : ℕ) : ℕ :=
  match periodYear with
  | some y => y
  | none => todayYear

/-- The detected fiscal-year list (source lines 122–124). -/
def yearsOf (full : List Char) (periodYear : Option ℕ) (todayYear : ℕ) : List ℕ :=
  let ys := sortedDedup (findYears full)
  if ys = [] then [fallbackYear periodYear todayYear] else ys

/-- `"\n".join(pages)`. -/
def joinPages : List (List Char) → List Char
  | [] => []
  | [p] => p
  | p :: ps => p ++ '\n' :: joinPages ps

/-- Python `max` of a list (the call sites guarantee non-emptiness; the
default on `[]` is arbitrary). -/
def maxL : List ℕ → ℕ
  | [] => 0
  | a :: l => l.foldl max a

/-- Python `min` of a list. -/
def minL : List ℕ → ℕ
  | [] => 0
  | a :: l => l.foldl min a

/-! ## Year buckets and the value accumulator (source lines 126–175) -/

/-- A per-year flat map, canonical key to value. -/
def Flat : Type := List (String × ℚ)

/-- The year-bucket map. -/
def Raw : Type := List (ℕ × Flat)

/-- Write `k ↦ v` into a flat map (Python `dict` item assignment:
replace the binding if present, else add it). -/
def fset : Flat → String → ℚ → Flat
  | [], k, v => [(k, v)]
  | kv :: rest, k, v => if kv.1 = k then (k, v) :: rest else kv :: fset rest k v

/-- `raw[y][k] = v`.  The source indexes `raw[y]` on a key that is always
present (every write targets a detected year); absent keys add an entry here,
which keeps the function total and makes the key-set invariant a theorem. -/
def rawSet : Raw → ℕ → String → ℚ → Raw
  | [], y, k, v => [(y, [(k, v)])]
  | yf :: rest, y, k, v =>
      if yf.1 = y then (y, fset yf.2 k v) :: rest else yf :: rawSet rest y k v

/-- Read `raw[y][k]` if both keys are present. -/
def rawGet (raw : Raw) (y : ℕ) (k : String) : Option ℚ :=
  match List.lookup y raw with
  | some f => List.lookup k f
  | none => none

/-- Substring test, the model of Python `sub in l`. -/
def hasSub (sub : List Char) : List Char → Bool
  | [] => sub.isEmpty
  | c :: rest => sub.isPrefixOf (c :: rest) || hasSub sub rest

/-- The hard-coded `change_map` fallback table (source lines 147–155),
in source order. -/
def changeMap : List (List Char × String) :=
  [("accounts receivable".data, "change_accounts_receivable"),
   ("investment tax credits receivable".data, "change_investment_tax_credits_receivable"),
   ("inventories".data, "change_inventories"),
   ("prepaid expenses".data, "change_prepaid_expenses"),
   ("accounts payable and accrued liabilities".data, "change_accounts_payable_and_accrued_liabilities"),
   ("government remittances payable".data, "change_government_remittances_payable"),
   ("deferred revenue".data, "change_deferred_revenue")]

/-- The `change_map` loop (source lines 156–160): first entry whose key is a
substring of the lower-cased label. -/
def changeLookup (label : List Char) : Option String :=
  changeMap.findSome?
    (fun p => if hasSub p.1 (lowerL label) then some p.2 else none)

/-- Per-line resolution (source lines 134–166): strip the line, tokenize,
split off and normalize the label, canonicalize it (taxonomy passes, then the
`change_map` fallback), and parse the digit-bearing tokens.  `none` means the
line is skipped; the payload is the canonical key and the parsed values.
`(parse_moneyQ x).getD 0` defaults the unreachable `ValueError` branch:
every `NUM_RE` token that passes the digit filter parses. -/
def lineResolve (env : Env) (line0 : List Char) : Option (String × List ℚ) :=
  let line := pyStripWs line0
  if line = [] then none
  else
    match env.tokens line with
    | [] => none
    | n0 :: ns =>
        let label_part := norm_label (pyStripWs (beforeFirst line n0))
        if label_part = [] then none
        else
          let canon :=
            match match_canonical env label_part with
            | some c => some c
            | none => changeLookup label_part
          match canon with
          | none => none
          | some ck =>
              match ((n0 :: ns).filter (fun x => x.any isDig)).map
                  (fun x => (parse_moneyQ x).getD 0) with
              | [] => none
              | v :: vs => some (ck, v :: vs)

/-- The value accumulator (source lines 168–173): with at least two values
and at least two detected years, `values[-2]` goes to `max(years)` and
`values[-1]` to `min(years)`; otherwise `values[-1]` goes to the current
year context. -/
def processLine (env : Env) (years : List ℕ) (ctx : ℕ) (raw : Raw)
    (line0 : List Char) : Raw :=
  match lineResolve env line0 with
  | none => raw
  | some cv =>
      let values := cv.2
      if 2 ≤ values.length ∧ 2 ≤ years.length then
        rawSet (rawSet raw (maxL years) cv.1 (values.getD (values.length - 2) 0))
          (minL years) cv.1 (values.getLastD 0)
      else rawSet raw ctx cv.1 (values.getLastD 0)

/-- One page of the main loop (source lines 129–173): refresh the current
year context from the page's own year tokens, then process its lines. -/
def processPage (env : Env) (years : List ℕ) (st : ℕ × Raw) (page : List Char) :
    ℕ × Raw :=
  let pys := findYears page
  let ctx := if pys = [] then st.1 else maxL pys
  (ctx, (splitLinesL page).foldl (processLine env years ctx) st.2)

/-- The year-bucket construction of `parse_pdf_to_year_buckets`
(source lines 119–175), starting from the already-extracted page texts. -/
def parseBuckets (env : Env) (pages : List (List Char)) (periodYear : Option ℕ)
    (todayYear : ℕ) : Raw :=
  let full := joinPages pages
  let years := yearsOf full periodYear todayYear
  let raw0 : Raw := years.map (fun y => (y, ([] : Flat)))
  (pages.foldl (processPage env years) (maxL years, raw0)).2

/-! ## Company detection (source lines 44–50) -/

/-- The body of the company-candidate loop of `extract_company_and_period`
(source lines 46–50): a stripped line containing a marker and longer than
five characters replaces the candidate when strictly longer than it. -/
def companyStep (markers : List (List Char)) (company : Option (List Char))
    (line : List Char) : Option (List Char) :=
  let L := pyStripWs line
  if (markers.any (fun m => hasSub m (lowerL L))) ∧ 5 < L.length then
    match company with
    | none => some L
    | some c => if c.length < L.length then some L else some c
  else company

/-- The company-candidate loop of `extract_company_and_period`: among the
stripped lines longer than five characters that contain a marker, the first
longest one wins. -/
def extract_company (markers : List (List Char)) (text : List Char) :
    Option (List Char) :=
  (splitLinesL text).foldl (companyStep markers) none

/-! ## Rounding and number rendering -/

/-- Round a rational to the nearest integer, halves to even — the model of
Python `round` on these values. -/
def rndInt (x : ℚ) : ℤ :=
  let f := ⌊x⌋
  let r := x - (f : ℚ)
  if r < 1/2 then f
  else if 1/2 < r then f + 1
  else if 2 ∣ f then f else f + 1

/-- `round(x, 2)`. -/
def round2 (x : ℚ) : ℚ := (rndInt (100 * x) : ℚ) / 100

/-- Decimal rendering of the two-decimal check values, mirroring Python float
`repr` on such values (`0.0`, `2.5`, `-12.34`). -/
def ratStr (q : ℚ) : List Char :=
  let m := (q.num.natAbs * 100) / q.den
  let n := m / 100
  let r := m % 100
  let frac :=
    if r % 10 = 0 then Nat.toDigits 10 (r / 10)
    else if r < 10 then '0' :: Nat.toDigits 10 r
    else Nat.toDigits 10 r
  (if q < 0 then ['-'] else []) ++ Nat.toDigits 10 n ++ '.' :: frac

/-! ## Payload structures (the nested dict built by `rollup_payload`) -/

/-- A components/total block. -/
structure Block where
  components : List (String × ℚ)
  total : ℚ

/-- `payload["balance_sheet"]["assets"]`. -/
structure AssetsB where
  current_assets : Block
  investment_in_xyz_ltd : ℚ
  equipment_and_software : ℚ
  intangible_assets : ℚ
  total_assets : ℚ

/-- `payload["balance_sheet"]["liabilities_and_equity"]`. -/
structure LiabEq where
  current_liabilities : Block
  loan_payable : ℚ
  shareholders_equity : Block
  total_liabilities_and_equity : ℚ

/-- `payload["balance_sheet"]`. -/
structure BalanceSheet where
  assets : AssetsB
  liabilities_and_equity : LiabEq

/-- `payload["income_statement"]["retained_earnings_rollforward"]`. -/
structure RERoll where
  beginning : ℚ
  dividends : ℚ
  endBal : ℚ

/-- `payload["income_statement"]`. -/
structure IncomeStmt where
  revenue : ℚ
  expenses : Block
  income_before_income_taxes : ℚ
  income_taxes : ℚ
  net_income : ℚ
  retained_earnings_rollforward : RERoll

/-- `payload["cash_flows"]`. -/
structure CashFlows where
  operating_activities : Block
  investing_activities : Block
  financing_activities : Block
  increase_in_cash : ℚ
  cash_beginning : ℚ
  cash_end : ℚ

/-- The payload before `_diagnostics` is attached. -/
structure PayloadCore where
  company : String
  fiscal_year : ℕ
  period_end : Option (ℕ × ℕ × ℕ)
  currency : String
  balance_sheet : BalanceSheet
  income_statement : IncomeStmt
  cash_flows : CashFlows

/-- The diagnostics block: the four checks in insertion order, and the
warning strings. -/
structure Diag where
  checks : List (String × ℚ)
  warnings : List (List Char)

/-- The full payload, `_diagnostics` included. -/
structure Payload where
  core : PayloadCore
  diags : Diag

/-- The warning string `f"{k} mismatch: {v}"`. -/
def mkWarn (k : String) (v : ℚ) : List Char :=
  k.data ++ " mismatch: ".data ++ ratStr v

/-- Model of `diagnostics` (source lines 177–209). -/
def diagnostics (p : PayloadCore) : Diag :=
  let A := p.balance_sheet.assets.total_assets
  let LQ := p.balance_sheet.liabilities_and_equity.current_liabilities.total
  let LP := p.balance_sheet.liabilities_and_equity.loan_payable
  let EQv := p.balance_sheet.liabilities_and_equity.shareholders_equity.total
  let beg := p.income_statement.retained_earnings_rollforward.beginning
  let ni := p.income_statement.net_income
  let dv := p.income_statement.retained_earnings_rollforward.dividends
  let en := p.income_statement.retained_earnings_rollforward.endBal
  let cb := p.cash_flows.cash_beginning
  let inc := p.cash_flows.increase_in_cash
  let ce := p.cash_flows.cash_end
  let rev := p.income_statement.revenue
  let exp := p.income_statement.expenses.total
  let ibt := p.income_statement.income_before_income_taxes
  let checks : List (String × ℚ) :=
    [("balance_sheet_identity", round2 (A - (LQ + LP + EQv))),
     ("retained_earnings_recon", round2 ((beg + ni + dv) - en)),
     ("cash_bridge", round2 ((cb + inc) - ce)),
     ("ibt_vs_rev_minus_exp", round2 ((rev - exp) - ibt))]
  { checks := checks
    warnings := checks.foldl
      (fun acc kv => if 1 < |kv.2| then acc ++ [mkWarn kv.1 kv.2] else acc) [] }

/-! ## Rollup builder (source lines 211–310) -/

/-- The rollup groups of the taxonomy configuration (`ROLLUPS`), abstract
for the same reason as `canon`.  `loan_payable_key` is `none` when the
configured value is not a string (`isinstance(k, str)` check, line 228). -/
structure Rollups where
  ca_keys : List String
  asset_singletons : List String
  cl_keys : List String
  loan_payable_key : Option String
  sh_keys : List String
  exp_keys : List String

/-- `r.get(k, 0.0)` (source line 212). -/
def g (r : Flat) (k : String) : ℚ := (List.lookup k r).getD 0

/-- `sum(g(k) for k in keys)` (source line 213). -/
def sumKeys (r : Flat) (keys : List String) : ℚ := (keys.map (g r)).sum

/-- Model of `rollup_payload` (source lines 211–310). -/
def rollup_payload (rl : Rollups) (company : String) (period : Option (ℕ × ℕ × ℕ))
    (currency : String) (year : ℕ) (r : Flat) : Payload :=
  let current_assets_total := sumKeys r rl.ca_keys
  let total_assets := current_assets_total + sumKeys r rl.asset_singletons
  let current_liab_total := sumKeys r rl.cl_keys
  let loan_payable :=
    match rl.loan_payable_key with
    | some k => g r k
    | none => 0
  let shareholders_total := sumKeys r rl.sh_keys
  let total_liab_equity := current_liab_total + loan_payable + shareholders_total
  let expenses_total := sumKeys r rl.exp_keys
  let core : PayloadCore :=
    { company := company
      fiscal_year := year
      period_end := period
      currency := currency
      balance_sheet :=
        { assets :=
            { current_assets :=
                { components := rl.ca_keys.map (fun k => (k, g r k))
                  total := round2 current_assets_total }
              investment_in_xyz_ltd := g r "investment_in_xyz_ltd"
              equipment_and_software := g r "equipment_and_software"
              intangible_assets := g r "intangible_assets"
              total_assets := round2 total_assets }
          liabilities_and_equity :=
            { current_liabilities :=
                { components := rl.cl_keys.map (fun k => (k, g r k))
                  total := round2 current_liab_total }
              loan_payable := round2 loan_payable
              shareholders_equity :=
                { components := rl.sh_keys.map (fun k => (k, g r k))
                  total := round2 shareholders_total }
              total_liabilities_and_equity := round2 total_liab_equity } }
      income_statement :=
        { revenue := g r "revenue"
          expenses :=
            { components := rl.exp_keys.map (fun k => (k, g r k))
              total := round2 expenses_total }
          income_before_income_taxes := g r "income_before_income_taxes"
          income_taxes := g r "income_taxes"
          net_income := g r "net_income"
          retained_earnings_rollforward :=
            { beginning := g r "retained_earnings_beginning"
              dividends := g r "dividends"
              endBal := g r "retained_earnings_end_of_year" } }
      cash_flows :=
        { operating_activities :=
            { components :=
                [("net_income", g r "net_income"),
                 ("adjustments_amortization_tangible", g r "amortization_of_tangible_assets"),
                 ("adjustments_amortization_intangible", g r "amortization_of_intangible_assets"),
                 ("change_accounts_receivable", g r "change_accounts_receivable"),
                 ("change_investment_tax_credits_receivable", g r "change_investment_tax_credits_receivable"),
                 ("change_inventories", g r "change_inventories"),
                 ("change_prepaid_expenses", g r "change_prepaid_expenses"),
                 ("change_accounts_payable_and_accrued_liabilities", g r "change_accounts_payable_and_accrued_liabilities"),
                 ("change_government_remittances_payable", g r "change_government_remittances_payable"),
                 ("change_deferred_revenue", g r "change_deferred_revenue")]
              total := round2
                (g r "net_income" + g r "amortization_of_tangible_assets" +
                 g r "amortization_of_intangible_assets" +
                 g r "change_accounts_receivable" +
                 g r "change_investment_tax_credits_receivable" +
                 g r "change_inventories" +
                 g r "change_prepaid_expenses" +
                 g r "change_accounts_payable_and_accrued_liabilities" +
                 g r "change_government_remittances_payable" +
                 g r "change_deferred_revenue") }
          investing_activities :=
            { components :=
                [("purchase_of_property_and_equipment", g r "purchase_of_property_and_equipment")]
              total := round2 (g r "purchase_of_property_and_equipment") }
          financing_activities :=
            { components :=
                [("repayment_of_shareholder_loan", g r "repayment_of_shareholder_loan"),
                 ("dividends_paid", g r "dividends_paid"),
                 ("repayment_of_loan_payable", g r "repayment_of_loan_payable"),
                 ("redemption_of_capital_stock", g r "redemption_of_capital_stock")]
              total := round2
                (g r "repayment_of_shareholder_loan" + g r "dividends_paid" +
                 g r "repayment_of_loan_payable" + g r "redemption_of_capital_stock") }
          increase_in_cash := g r "increase_in_cash"
          cash_beginning := g r "cash_beginning"
          cash_end := g r "cash_end" } }
  { core := core, diags := diagnostics core }

/-- The ten fixed component keys of the cash-flow operating total, as the
spec names them: net income, the two amortization adjustments, and the seven
working-capital changes. -/
def operatingTenKeys : List String :=
  ["net_income", "amortization_of_tangible_assets", "amortization_of_intangible_assets",
   "change_accounts_receivable", "change_investment_tax_credits_receivable",
   "change_inventories", "change_prepaid_expenses",
   "change_accounts_payable_and_accrued_liabilities",
   "change_government_remittances_payable", "change_deferred_revenue"]

/-! ## Spec-side reading of the year detection (§4.2) -/

/-- Modelled from the spec (§4.2): `n` is one of the distinct 4-digit tokens
in the range 1900–2099 found in the text — four digit characters delimited by
word boundaries whose value is `n`. -/
def specYearToken (s : List Char) (n : ℕ) : Prop :=
  1900 ≤ n ∧ n ≤ 2099 ∧
  ∃ i a b c d,
    s[i]? = some a ∧ s[i+1]? = some b ∧ s[i+2]? = some c ∧ s[i+3]? = some d ∧
    isDig a ∧ isDig b ∧ isDig c ∧ isDig d ∧
    n = yearVal a b c d ∧
    bndBefore s i = true ∧ nonWordOpt s[i+4]? = true

/-! ## A concrete tokenizer for witnesses -/

/-- A simple digit-run tokenizer used to instantiate `Env.tokens` in
witnesses; on the witness lines it returns exactly the `NUM_RE` matches. -/
def digitRunsAux (acc : List Char) : List Char → List (List Char)
  | [] => if acc = [] then [] else [acc.reverse]
  | c :: rest =>
      if isDig c then digitRunsAux (c :: acc) rest
      else if acc = [] then digitRunsAux [] rest
      else acc.reverse :: digitRunsAux [] rest

/-- Tokenizer entry point for witnesses. -/
def digitRuns (l : List Char) : List (List Char) := digitRunsAux [] l

/-- The character just before position `k`, if any; pairs a scan state with
an absolute position in the year-scan correctness proof. -/
def prevAt (s : List Char) (k : ℕ) : Option Char :=
  match k with
  | 0 => none
  | j + 1 => s[j]?

/-! ## Concrete fixtures used by witnesses and counterexamples -/

/-- A one-entry taxonomy recognising `cash` by regex. -/
def cxDesc : Desc := ⟨[], ["cash".data]⟩

/-- Environment for the accumulator examples: literal-substring regex
matching, an inert fuzzy scorer, and the digit-run tokenizer (which agrees
with `NUM_RE` on the example lines). -/
def cxEnv : Env :=
  { canon := [("cash", cxDesc)]
    research := hasSub
    scorer := fun _ _ => 0
    tokens := digitRuns }

/-- Year buckets for a {2022, 2023} document, before any write. -/
def cxRaw : Raw := [(2022, []), (2023, [])]

/-- A data line carrying three numeric tokens. -/
def cxLine : List Char := "Cash 1 2 3".data

/-- A data line carrying exactly two numeric tokens. -/
def cwLine : List Char := "Cash 10000 8000".data

/-- Environment whose taxonomy matches label `alpha` by regex on key `A`
while the fuzzy scorer would award 100 to key `B`'s synonym. -/
def rxEnv : Env :=
  { canon := [("A", ⟨[], ["alp".data]⟩), ("B", ⟨["alpine".data], []⟩)]
    research := hasSub
    scorer := fun _ _ => 100
    tokens := fun _ => [] }

/-- Environment for the unmatched-line example: one taxonomy entry that does
not match the label, a fuzzy scorer below the threshold everywhere. -/
def skEnv : Env :=
  { canon := [("revenue", ⟨["revenue".data], ["revenue".data]⟩)]
    research := hasSub
    scorer := fun _ _ => 50
    tokens := digitRuns }

/-- A one-year bucket map for the unmatched-line example. -/
def skRaw : Raw := [(2022, [])]

/-- A numeric line whose label matches nothing. -/
def skLine : List Char := "Mystery item 5".data

/-- An all-zero components/total block. -/
def zeroBlock : Block := ⟨[], 0⟩

/-- A payload core whose balance-sheet identity holds exactly. -/
def dgCore : PayloadCore :=
  { company := "X"
    fiscal_year := 2023
    period_end := none
    currency := "USD"
    balance_sheet :=
      { assets := ⟨zeroBlock, 0, 0, 0, 0⟩
        liabilities_and_equity := ⟨zeroBlock, 0, zeroBlock, 0⟩ }
    income_statement := ⟨0, zeroBlock, 0, 0, 0, ⟨0, 0, 0⟩⟩
    cash_flows := ⟨zeroBlock, zeroBlock, zeroBlock, 0, 0, 0⟩ }

/-! # Theorems -/

theorem regexPassAux_eq_find (research : List Char → List Char → Bool)
    (canon : List (String × Desc)) (lab : List Char) :
    regexPassAux research canon lab
      = (canon.find? (fun kd => kd.2.regex.any (fun rx => research rx lab))).map
          Prod.fst := by
  induction canon with
  | nil => rfl
  | cons kd rest ih =>
      by_cases h : kd.2.regex.any (fun rx => research rx lab) <;>
        simp [regexPassAux, List.find?_cons, h, ih]

/-- C2: `parse_money` maps `"(1,234.56)"` to `-1234.56`, `"$2,000"` to
`2000.0`, `"-"` and `"0"` to `0.0`; and in general it strips parentheses,
dollar signs, surrounding space and thousands-separator commas, parses an
empty or lone-dash remainder as `0.0`, and negates exactly when the token is
wrapped in matching parentheses — i.e. it agrees with the spec's description
`parse_money_specQ` on every token. -/
theorem spec2proof_C2_parse_money :
    parse_moneyQ "(1,234.56)".data = some (-1234.56 : ℚ) ∧
    parse_moneyQ "$2,000".data = some (2000 : ℚ) ∧
    parse_moneyQ "-".data = some (0 : ℚ) ∧
    parse_moneyQ "0".data = some (0 : ℚ) ∧
    ∀ tok : List Char, parse_moneyQ tok = parse_money_specQ tok := by
  refine ⟨?_, by decide, by decide, by decide, ?_⟩
  · simp +decide [parse_moneyQ, pyStripWs, stripEnds, pyFloat, pyFloatUnsigned, digitsVal,
      show digitVal '1' = 1 from rfl, show digitVal '2' = 2 from rfl,
      show digitVal '3' = 3 from rfl, show digitVal '4' = 4 from rfl,
      show digitVal '5' = 5 from rfl, show digitVal '6' = 6 from rfl]
    norm_num
  · intro tok
    simp only [parse_moneyQ, parse_money_specQ]
    generalize pyFloat (List.filter (fun c => decide (c ≠ ','))
      (stripEnds isParenDollarSpace tok)) = o
    cases o <;> rfl

/-- C3: whenever some taxonomy regex matches the lower-cased label, the
matcher returns the key of the first such entry in taxonomy iteration order
(`firstRegexKey`), regardless of the fuzzy scorer. -/
theorem spec2proof_C3_regex_pass_wins (env : Env) (label : List Char) (k : String)
    (h : firstRegexKey env (lowerL label) = some k) :
    match_canonical env label = some k := by
  simp only [match_canonical, regexPassAux_eq_find]
  simp only [firstRegexKey] at h
  rw [h]

theorem spec2proof_C3_witness : match_canonical rxEnv "alpha".data = some "A" :=
  spec2proof_C3_regex_pass_wins rxEnv "alpha".data "A" (by decide)

theorem companyStep_long (markers : List (List Char)) (acc : Option (List Char))
    (line c : List Char) (hacc : ∀ x, acc = some x → 5 < x.length)
    (h : companyStep markers acc line = some c) : 5 < c.length := by
  cases acc with
  | none =>
      simp only [companyStep] at h
      split at h
      · next hcond => injection h with h1; rw [← h1]; exact hcond.2
      · exact Option.noConfusion h
  | some c' =>
      simp only [companyStep] at h
      split at h
      · next hcond =>
          split at h
          · injection h with h1; rw [← h1]; exact hcond.2
          · injection h with h1; rw [← h1]; exact hacc c' rfl
      · exact hacc c h

theorem extract_company_fold (markers : List (List Char)) :
    ∀ (lines : List (List Char)) (acc : Option (List Char)),
      (∀ x, acc = some x → 5 < x.length) →
      ∀ c, lines.foldl (companyStep markers) acc = some c → 5 < c.length := by
  intro lines
  induction lines with
  | nil => intro acc hacc c h; exact hacc c h
  | cons l ls ih =>
      intro acc hacc c h
      exact ih (companyStep markers acc l)
        (fun x hx => companyStep_long markers acc l x hacc hx) c h

/-- C9: company detection only ever returns a (stripped) candidate line of
length strictly greater than 5; a marker line of length 5 or less never
becomes the detected company. -/
theorem spec2proof_C9_company_length (markers : List (List Char))
    (text : List Char) (c : List Char)
    (h : extract_company markers text = some c) : 5 < c.length :=
  extract_company_fold markers (splitLinesL text) none (by intro x hx; cases hx) c h

theorem spec2proof_C9_witness : 5 < ("Acme inc.".data).length :=
  spec2proof_C9_company_length ["inc".data] ("Acme inc.\nx 1".data)
    ("Acme inc.".data) (by decide)

/-- C8: the rollup builder is a pure function of
`(company, period, currency, fiscal_year, flat_map)` (and the rollup
configuration), so running it twice on the same input yields identical
payloads. -/
theorem spec2proof_C8_rollup_deterministic (rl : Rollups) (c : String)
    (p : Option (ℕ × ℕ × ℕ)) (cur : String) (y : ℕ) (r : Flat) :
    rollup_payload rl c p cur y r = rollup_payload rl c p cur y r := rfl

/-- C7: the cash-flow `operating_activities.total` is the 2-decimal rounding
of the sum of the ten fixed component keys, and a key missing from the flat
map contributes `0.0` (never an error). -/
theorem spec2proof_C7_operating_total :
    (∀ (rl : Rollups) (c : String) (p : Option (ℕ × ℕ × ℕ)) (cur : String)
        (y : ℕ) (r : Flat),
      (rollup_payload rl c p cur y r).core.cash_flows.operating_activities.total
        = round2 ((operatingTenKeys.map (g r)).sum)) ∧
    (∀ (r : Flat) (k : String), List.lookup k r = none → g r k = 0) := by
  constructor
  · intro rl c p cur y r
    simp only [rollup_payload, operatingTenKeys, List.map_cons, List.map_nil,
      List.sum_cons, List.sum_nil]
    congr 1
    ring
  · intro r k h
    simp [g, h]

theorem spec2proof_C7_witness : g ([] : Flat) "cash" = 0 :=
  spec2proof_C7_operating_total.2 ([] : Flat) "cash" rfl

theorem warn_foldl_eq (l : List (String × ℚ)) (acc : List (List Char)) :
    l.foldl (fun a kv => if 1 < |kv.2| then a ++ [mkWarn kv.1 kv.2] else a) acc
      = acc ++ (l.filter (fun kv => 1 < |kv.2|)).map (fun kv => mkWarn kv.1 kv.2) := by
  induction l generalizing acc with
  | nil => simp
  | cons kv rest ih =>
      by_cases h : 1 < |kv.2| <;>
        simp [List.foldl_cons, List.filter_cons, h, ih]

theorem round2_zero : round2 0 = 0 := by
  norm_num [round2, rndInt]

theorem bsi_not_warn_re (v : ℚ) :
    (("balance_sheet_identity".data).isPrefixOf (mkWarn "retained_earnings_recon" v))
      = false := rfl

theorem bsi_not_warn_cb (v : ℚ) :
    (("balance_sheet_identity".data).isPrefixOf (mkWarn "cash_bridge" v)) = false := rfl

theorem bsi_not_warn_ibt (v : ℚ) :
    (("balance_sheet_identity".data).isPrefixOf (mkWarn "ibt_vs_rev_minus_exp" v))
      = false := rfl

/-- C6: the diagnostics warnings are exactly the `"<check> mismatch: <value>"`
strings of the checks whose absolute rounded residual strictly exceeds `1.0`;
and when `total_assets` equals current-liabilities total plus `loan_payable`
plus shareholders-equity total exactly, the `balance_sheet_identity` residual
is `0.0` and no warning for that check is present. -/
theorem spec2proof_C6_diagnostics (p : PayloadCore) :
    (diagnostics p).warnings
      = ((diagnostics p).checks.filter (fun kv => 1 < |kv.2|)).map
          (fun kv => mkWarn kv.1 kv.2) ∧
    (p.balance_sheet.assets.total_assets
        = p.balance_sheet.liabilities_and_equity.current_liabilities.total
          + p.balance_sheet.liabilities_and_equity.loan_payable
          + p.balance_sheet.liabilities_and_equity.shareholders_equity.total →
      List.lookup "balance_sheet_identity" (diagnostics p).checks = some 0 ∧
      ∀ w ∈ (diagnostics p).warnings,
        (("balance_sheet_identity".data).isPrefixOf w) = false) := by
  constructor
  · simp only [diagnostics]
    rw [warn_foldl_eq, List.nil_append]
  · intro hA
    have h0 : round2 (p.balance_sheet.assets.total_assets
        - (p.balance_sheet.liabilities_and_equity.current_liabilities.total
          + p.balance_sheet.liabilities_and_equity.loan_payable
          + p.balance_sheet.liabilities_and_equity.shareholders_equity.total)) = 0 := by
      rw [hA, sub_self, round2_zero]
    constructor
    · simp +decide [diagnostics, List.lookup, h0]
    · intro w hw
      simp only [diagnostics] at hw
      rw [warn_foldl_eq, List.nil_append] at hw
      rcases List.mem_map.mp hw with ⟨kv, hkv, rfl⟩
      rcases List.mem_filter.mp hkv with ⟨hmem, hgt⟩
      simp only [List.mem_cons, List.not_mem_nil, or_false] at hmem
      rcases hmem with h1 | h2 | h3 | h4
      · exfalso
        subst h1
        rw [h0] at hgt
        norm_num at hgt
      · subst h2; exact bsi_not_warn_re _
      · subst h3; exact bsi_not_warn_cb _
      · subst h4; exact bsi_not_warn_ibt _

theorem spec2proof_C6_witness :
    List.lookup "balance_sheet_identity" (diagnostics dgCore).checks = some 0 ∧
    ∀ w ∈ (diagnostics dgCore).warnings,
      (("balance_sheet_identity".data).isPrefixOf w) = false :=
  (spec2proof_C6_diagnostics dgCore).2 (by simp [dgCore, zeroBlock])

theorem regexPassAux_none (research : List Char → List Char → Bool)
    (canon : List (String × Desc)) (lab : List Char)
    (h : ∀ kd ∈ canon, ∀ rx ∈ kd.2.regex, research rx lab = false) :
    regexPassAux research canon lab = none := by
  induction canon with
  | nil => rfl
  | cons kd rest ih =>
      have hany : kd.2.regex.any (fun rx => research rx lab) = false := by
        rw [List.any_eq_false]
        intro rx hrx
        simp [h kd (List.mem_cons_self kd rest) rx hrx]
      simp only [regexPassAux, hany, Bool.false_eq_true, if_false]
      exact ih (fun kd' h' rx hrx => h kd' (List.mem_cons_of_mem _ h') rx hrx)

theorem match_canonical_none (env : Env) (L : List Char)
    (hrx : ∀ kd ∈ env.canon, ∀ rx ∈ kd.2.regex, env.research rx (lowerL L) = false)
    (hfz : (extractOne env.scorer (lowerL L) (fuzzyChoices env.canon)).all
        (fun bs => bs.2 < 84) = true) :
    match_canonical env L = none := by
  simp only [match_canonical, regexPassAux_none env.research env.canon (lowerL L) hrx]
  cases hopt : extractOne env.scorer (lowerL L) (fuzzyChoices env.canon) with
  | none => rfl
  | some bs =>
      rw [hopt] at hfz
      have hlt : bs.2 < 84 := by simpa [Option.all] using hfz
      simp [Nat.not_le.mpr hlt]

theorem changeLookup_none (L : List Char)
    (h : ∀ p ∈ changeMap, hasSub p.1 (lowerL L) = false) :
    changeLookup L = none := by
  simp only [changeLookup]
  rw [List.findSome?_eq_none_iff]
  intro p hp
  simp [h p hp]

/-- C4: a numeric line whose normalized label matches no taxonomy regex, has
best fuzzy similarity below the threshold 84, and contains no `change_map`
entry as a substring contributes nothing: the year-bucket map is returned
unchanged (silent skip, no error). -/
theorem spec2proof_C4_unmatched (env : Env) (years : List ℕ) (ctx : ℕ) (raw : Raw)
    (line : List Char) (n0 : List Char) (ns : List (List Char)) (L : List Char)
    (htok : env.tokens (pyStripWs line) = n0 :: ns)
    (hlab : norm_label (pyStripWs (beforeFirst (pyStripWs line) n0)) = L)
    (hrx : ∀ kd ∈ env.canon, ∀ rx ∈ kd.2.regex, env.research rx (lowerL L) = false)
    (hfz : (extractOne env.scorer (lowerL L) (fuzzyChoices env.canon)).all
        (fun bs => bs.2 < 84) = true)
    (hcm : ∀ p ∈ changeMap, hasSub p.1 (lowerL L) = false) :
    processLine env years ctx raw line = raw := by
  have hres : lineResolve env line = none := by
    simp only [lineResolve]
    by_cases hempty : pyStripWs line = []
    · simp [hempty]
    · rw [if_neg hempty]
      simp only [htok, hlab]
      by_cases hL : L = []
      · simp [hL]
      · rw [if_neg hL, match_canonical_none env L hrx hfz, changeLookup_none L hcm]
  simp [processLine, hres]

theorem spec2proof_C4_witness : processLine skEnv [2022] 2022 skRaw skLine = skRaw :=
  spec2proof_C4_unmatched skEnv [2022] 2022 skRaw skLine ['5'] []
    ("Mystery item".data) (by decide) (by decide) (by decide) (by decide) (by decide)

theorem fset_lookup_self (f : Flat) (k : String) (v : ℚ) :
    List.lookup k (fset f k v) = some v := by
  induction f with
  | nil => simp [fset, List.lookup]
  | cons kv rest ih =>
      obtain ⟨k0, v0⟩ := kv
      by_cases h : k0 = k
      · simp [fset, h, List.lookup]
      · have hb : (k == k0) = false := beq_eq_false_iff_ne.mpr (Ne.symm h)
        simp [fset, h, List.lookup, hb, ih]

theorem rawGet_cons_eq (y : ℕ) (f : Flat) (rest : Raw) (k : String) :
    rawGet ((y, f) :: rest) y k = List.lookup k f := by
  simp [rawGet, List.lookup]

theorem rawGet_cons_ne (y' : ℕ) (f : Flat) (rest : Raw) (y : ℕ) (k : String)
    (h : y' ≠ y) : rawGet ((y', f) :: rest) y k = rawGet rest y k := by
  have hb : (y == y') = false := beq_eq_false_iff_ne.mpr (Ne.symm h)
  simp [rawGet, List.lookup, hb]

theorem rawGet_rawSet_self (raw : Raw) (y : ℕ) (k : String) (v : ℚ) :
    rawGet (rawSet raw y k v) y k = some v := by
  induction raw with
  | nil => simp [rawSet, rawGet, List.lookup, fset]
  | cons yf rest ih =>
      obtain ⟨y0, f0⟩ := yf
      by_cases h : y0 = y
      · subst h
        simp [rawSet, rawGet_cons_eq, fset_lookup_self]
      · simp [rawSet, h, rawGet_cons_ne y0 f0 _ y k h, ih]

theorem rawGet_rawSet_ne (raw : Raw) (y y' : ℕ) (k k' : String) (v : ℚ)
    (hne : y ≠ y') :
    rawGet (rawSet raw y' k v) y k' = rawGet raw y k' := by
  induction raw with
  | nil =>
      have hb : (y == y') = false := beq_eq_false_iff_ne.mpr hne
      simp [rawSet, rawGet, List.lookup, hb]
  | cons yf rest ih =>
      obtain ⟨y0, f0⟩ := yf
      by_cases h : y0 = y'
      · subst h
        simp [rawSet, rawGet_cons_ne y0 _ _ y k' (fun he => hne (he ▸ rfl))]
      · by_cases hy : y0 = y
        · subst hy
          simp [rawSet, h, rawGet_cons_eq]
        · simp [rawSet, h, rawGet_cons_ne y0 f0 _ y k' hy, ih]

theorem foldl_max_mem (a : ℕ) (l : List ℕ) : l.foldl max a ∈ a :: l := by
  induction l generalizing a with
  | nil => simp
  | cons b t ih =>
      rcases List.mem_cons.mp (ih (max a b)) with h | h
      · rw [List.foldl_cons, h]
        rcases max_choice a b with hm | hm
        · rw [hm]; exact List.mem_cons_self a (b :: t)
        · rw [hm]; exact List.mem_cons_of_mem a (List.mem_cons_self b t)
      · rw [List.foldl_cons]
        exact List.mem_cons_of_mem a (List.mem_cons_of_mem b h)

theorem foldl_min_mem (a : ℕ) (l : List ℕ) : l.foldl min a ∈ a :: l := by
  induction l generalizing a with
  | nil => simp
  | cons b t ih =>
      rcases List.mem_cons.mp (ih (min a b)) with h | h
      · rw [List.foldl_cons, h]
        rcases min_choice a b with hm | hm
        · rw [hm]; exact List.mem_cons_self a (b :: t)
        · rw [hm]; exact List.mem_cons_of_mem a (List.mem_cons_self b t)
      · rw [List.foldl_cons]
        exact List.mem_cons_of_mem a (List.mem_cons_of_mem b h)

theorem maxL_mem (l : List ℕ) (h : l ≠ []) : maxL l ∈ l := by
  cases l with
  | nil => exact absurd rfl h
  | cons a t => exact foldl_max_mem a t

theorem minL_mem (l : List ℕ) (h : l ≠ []) : minL l ∈ l := by
  cases l with
  | nil => exact absurd rfl h
  | cons a t => exact foldl_min_mem a t

theorem foldl_min_of_le (a : ℕ) (l : List ℕ) (h : ∀ x ∈ l, a ≤ x) :
    l.foldl min a = a := by
  induction l with
  | nil => rfl
  | cons b t ih =>
      rw [List.foldl_cons, min_eq_left (h b (List.mem_cons_self b t))]
      exact ih (fun x hx => h x (List.mem_cons_of_mem b hx))

theorem minL_lt_maxL (l : List ℕ) (hs : l.Sorted (· ≤ ·)) (hnd : l.Nodup)
    (hlen : 2 ≤ l.length) : minL l < maxL l := by
  match l, hs, hnd, hlen with
  | a :: b :: t, hs, hnd, _ =>
    have hle : ∀ x ∈ b :: t, a ≤ x := List.rel_of_sorted_cons hs
    have hmin : minL (a :: b :: t) = a := foldl_min_of_le a (b :: t) hle
    have hmax : maxL (a :: b :: t) ∈ b :: t := by
      show (b :: t).foldl max a ∈ b :: t
      rw [List.foldl_cons, max_eq_right (hle b (List.mem_cons_self b t))]
      exact foldl_max_mem b t
    have hneq : a ≠ maxL (a :: b :: t) :=
      fun he => (List.nodup_cons.mp hnd).1 (he ▸ hmax)
    rw [hmin]
    exact lt_of_le_of_ne (hle _ hmax) hneq

/-- C1 (amended): for a line resolving to a canonical key with at least two
parsed values, in a document with at least two distinct detected years, the
*last two* parsed values (`values[-2]`, `values[-1]`) are interpreted as
`(current, prior)` and written to `(max(years), key)` and `(min(years), key)`
respectively; for a line with exactly two numeric tokens this writes the
first parsed value to the maximal year and the second to the minimal year. -/
theorem spec2proof_C1_two_column (env : Env) (years : List ℕ) (ctx : ℕ)
    (raw : Raw) (line : List Char) (ck : String) (values : List ℚ)
    (hres : lineResolve env line = some (ck, values))
    (hv : 2 ≤ values.length)
    (hs : years.Sorted (· ≤ ·)) (hnd : years.Nodup) (hlen : 2 ≤ years.length) :
    rawGet (processLine env years ctx raw line) (maxL years) ck
        = some (values.getD (values.length - 2) 0) ∧
    rawGet (processLine env years ctx raw line) (minL years) ck
        = some (values.getLastD 0) := by
  have hne : minL years ≠ maxL years := ne_of_lt (minL_lt_maxL years hs hnd hlen)
  simp only [processLine, hres]
  rw [if_pos ⟨hv, hlen⟩]
  constructor
  · rw [rawGet_rawSet_ne _ _ _ _ _ _ (Ne.symm hne)]
    exact rawGet_rawSet_self raw (maxL years) ck _
  · exact rawGet_rawSet_self _ (minL years) ck _

theorem spec2proof_C1_witness :
    rawGet (processLine cxEnv [2022, 2023] 2023 cxRaw cwLine) (maxL [2022, 2023])
        "cash" = some (([10000, 8000] : List ℚ).getD
          (([10000, 8000] : List ℚ).length - 2) 0) ∧
    rawGet (processLine cxEnv [2022, 2023] 2023 cxRaw cwLine) (minL [2022, 2023])
        "cash" = some (([10000, 8000] : List ℚ).getLastD 0) :=
  spec2proof_C1_two_column cxEnv [2022, 2023] 2023 cxRaw cwLine "cash"
    [10000, 8000] (by decide) (by decide) (by decide) (by decide) (by decide)

/-- C1 fails as stated: on the line `"Cash 1 2 3"` (three numeric tokens,
parsed values `[1, 2, 3]`) in a `{2022, 2023}` document, the value written to
the maximal year 2023 is the second-to-last value `2`, not the first parsed
value `1` as the claim requires. -/
theorem spec2proof_C1_counterexample :
    lineResolve cxEnv cxLine = some ("cash", [1, 2, 3]) ∧
    rawGet (processLine cxEnv [2022, 2023] 2023 cxRaw cxLine) 2023 "cash"
        = some 2 ∧
    rawGet (processLine cxEnv [2022, 2023] 2023 cxRaw cxLine) 2023 "cash"
        ≠ some 1 := by
  decide

theorem isWordChar_of_isDig (c : Char) (h : isDig c = true) : isWordChar c = true := by
  simp [isWordChar, h]

theorem yearHead_digits (a b : Char) (h : yearHead a b = true) :
    isDig a = true ∧ isDig b = true := by
  simp only [yearHead, Bool.or_eq_true, Bool.and_eq_true, decide_eq_true_eq] at h
  rcases h with ⟨rfl, rfl⟩ | ⟨rfl, rfl⟩ <;> exact ⟨by decide, by decide⟩

theorem digit_bounds (c : Char) (h : isDig c = true) :
    48 ≤ c.toNat ∧ c.toNat ≤ 57 := by
  simpa [isDig] using h

theorem yearVal_bounds (a b c d : Char) (hh : yearHead a b = true)
    (hc : isDig c = true) (hd : isDig d = true) :
    1900 ≤ yearVal a b c d ∧ yearVal a b c d ≤ 2099 := by
  have hcb := digit_bounds c hc
  have hdb := digit_bounds d hd
  simp only [yearHead, Bool.or_eq_true, Bool.and_eq_true, decide_eq_true_eq] at hh
  rcases hh with ⟨rfl, rfl⟩ | ⟨rfl, rfl⟩ <;>
    · simp only [yearVal, digitVal, show '1'.toNat = 49 from rfl,
        show '9'.toNat = 57 from rfl, show '2'.toNat = 50 from rfl,
        show '0'.toNat = 48 from rfl]
      omega

theorem char_digit_eq (c : Char) (h : isDig c = true) (k : ℕ)
    (hval : digitVal c = k) : c = Char.ofNat (48 + k) := by
  have hb := digit_bounds c h
  have hc : c.toNat = 48 + k := by
    simp only [digitVal] at hval
    omega
  rw [← hc, Char.ofNat_toNat]

theorem yearAt_eq_some_iff (s : List Char) (i : ℕ) (n : ℕ) :
    yearAt s i = some n ↔ ∃ a b c d,
      s[i]? = some a ∧ s[i+1]? = some b ∧ s[i+2]? = some c ∧ s[i+3]? = some d ∧
      yearHead a b = true ∧ isDig c = true ∧ isDig d = true ∧
      bndBefore s i = true ∧ nonWordOpt s[i+4]? = true ∧ n = yearVal a b c d := by
  constructor
  · intro h
    unfold yearAt at h
    split at h
    · next a b c d h0 h1 h2 h3 =>
        split at h
        · next hcond =>
            simp only [Bool.and_eq_true] at hcond
            exact ⟨a, b, c, d, h0, h1, h2, h3, hcond.1.1.1.1, hcond.1.1.1.2,
              hcond.1.1.2, hcond.1.2, hcond.2, (Option.some.inj h).symm⟩
        · exact absurd h (by simp)
    · exact absurd h (by simp)
  · rintro ⟨a, b, c, d, h0, h1, h2, h3, hyh, hc, hd, hb, ha, rfl⟩
    unfold yearAt
    rw [h0, h1, h2, h3]
    simp [hyh, hc, hd, hb, ha]

theorem yearAt_none_of_len (s : List Char) (j : ℕ) (h : s.length ≤ j + 3) :
    yearAt s j = none := by
  cases hy : yearAt s j with
  | none => rfl
  | some n =>
      rw [yearAt_eq_some_iff] at hy
      obtain ⟨a, b, c, d, _, _, _, h3, _⟩ := hy
      rcases List.getElem?_eq_some.mp h3 with ⟨hlt, _⟩
      omega

theorem yearAt_none_of_bnd (s : List Char) (j : ℕ) (h : bndBefore s j = false) :
    yearAt s j = none := by
  cases hy : yearAt s j with
  | none => rfl
  | some n =>
      rw [yearAt_eq_some_iff] at hy
      obtain ⟨a, b, c, d, _, _, _, _, _, _, _, hb, _⟩ := hy
      rw [h] at hb
      cases hb

theorem drop_cons_getElem? (s : List Char) (k : ℕ) (a : Char) (rest : List Char)
    (h : s.drop k = a :: rest) : s[k]? = some a ∧ rest = s.drop (k + 1) := by
  constructor
  · have h0 := List.getElem?_drop s k 0
    rw [h] at h0
    simpa using h0.symm
  · have h1 := (List.drop_drop 1 k s).symm
    rw [h, List.drop_one, List.tail_cons] at h1
    exact h1.symm

theorem nonWordOpt_prevAt (s : List Char) (k : ℕ) :
    nonWordOpt (prevAt s k) = bndBefore s k := by
  cases k <;> rfl

theorem scanYears_mem_iff (s : List Char) :
    ∀ (m k : ℕ), s.length - k ≤ m →
      ∀ n, n ∈ scanYears (prevAt s k) (s.drop k) ↔
        ∃ j, k ≤ j ∧ yearAt s j = some n := by
  intro m
  induction m with
  | zero =>
      intro k hk n
      have hlen : s.length ≤ k := by omega
      have hdrop : s.drop k = [] := List.drop_eq_nil_of_le hlen
      rw [hdrop]
      constructor
      · intro h; cases h
      · rintro ⟨j, hj, hy⟩
        rw [yearAt_none_of_len s j (by omega)] at hy
        cases hy
  | succ m ih =>
      intro k hk n
      cases hdrop : s.drop k with
      | nil =>
          have hlen : s.length ≤ k := by
            have hld := List.length_drop k s
            rw [hdrop] at hld
            simp at hld
            omega
          rw [show scanYears (prevAt s k) [] = [] from rfl]
          constructor
          · intro h; cases h
          · rintro ⟨j, hj, hy⟩
            rw [yearAt_none_of_len s j (by omega)] at hy
            cases hy
      | cons a rest =>
          obtain ⟨hsk, hrest⟩ := drop_cons_getElem? s k a rest hdrop
          have hklen : k < s.length := by
            rcases List.getElem?_eq_some.mp hsk with ⟨hlt, _⟩
            exact hlt
          have hdroplen : (s.drop k).length = s.length - k := List.length_drop k s
          have hprev1 : prevAt s (k + 1) = some a := hsk
          have hshift : ∀ n', yearAt s k = none →
              ((∃ j, k ≤ j ∧ yearAt s j = some n') ↔
               (∃ j, k + 1 ≤ j ∧ yearAt s j = some n')) := by
            intro n' hnone
            constructor
            · rintro ⟨j, hj, hy⟩
              rcases Nat.eq_or_lt_of_le hj with rfl | hj'
              · rw [hnone] at hy; cases hy
              · exact ⟨j, hj', hy⟩
            · rintro ⟨j, hj, hy⟩
              exact ⟨j, by omega, hy⟩
          have hshort : ∀ (r : List Char), r = s.drop (k + 1) →
              scanYears (prevAt s k) (a :: r) = scanYears (some a) r →
              s.length ≤ k + 3 →
              (n ∈ scanYears (prevAt s k) (a :: r) ↔
                ∃ j, k ≤ j ∧ yearAt s j = some n) := by
            intro r hr hstep hlen3
            rw [hstep, hr, ← hprev1, ih (k + 1) (by omega) n]
            exact (hshift n (yearAt_none_of_len s k (by omega))).symm
          cases rest with
          | nil =>
              have hlen3 : s.length ≤ k + 3 := by
                rw [hdrop] at hdroplen
                simp only [List.length_cons, List.length_nil] at hdroplen
                omega
              exact hshort [] hrest (by rfl) hlen3
          | cons b rest1 =>
              cases rest1 with
              | nil =>
                  have hlen3 : s.length ≤ k + 3 := by
                    rw [hdrop] at hdroplen
                    simp only [List.length_cons, List.length_nil] at hdroplen
                    omega
                  exact hshort [b] hrest (by rfl) hlen3
              | cons c rest2' =>
                  cases rest2' with
                  | nil =>
                      have hlen3 : s.length ≤ k + 3 := by
                        rw [hdrop] at hdroplen
                        simp only [List.length_cons, List.length_nil] at hdroplen
                        omega
                      exact hshort [b, c] hrest (by rfl) hlen3
                  | cons d rest2 =>
                      obtain ⟨hsk1, hrest1⟩ :=
                        drop_cons_getElem? s (k + 1) b (c :: d :: rest2) hrest.symm
                      obtain ⟨hsk2, hrest2⟩ :=
                        drop_cons_getElem? s (k + 2) c (d :: rest2) hrest1.symm
                      obtain ⟨hsk3, hrest3⟩ :=
                        drop_cons_getElem? s (k + 3) d rest2 hrest2.symm
                      have hafter : nonWordOpt rest2.head? = nonWordOpt s[k + 4]? := by
                        rw [hrest3, List.head?_eq_getElem?, List.getElem?_drop]
                      have hcondeq : yearAt s k =
                          (if yearHead a b && isDig c && isDig d && bndBefore s k
                              && nonWordOpt s[k + 4]? then
                            some (yearVal a b c d) else none) := by
                        unfold yearAt
                        rw [hsk, hsk1, hsk2, hsk3]
                      by_cases hcond : (yearHead a b && isDig c && isDig d
                          && bndBefore s k && nonWordOpt s[k + 4]?) = true
                      · have hyk : yearAt s k = some (yearVal a b c d) := by
                          rw [hcondeq, if_pos hcond]
                        have hstep : scanYears (prevAt s k) (a :: b :: c :: d :: rest2)
                            = yearVal a b c d :: scanYears (some d) rest2 := by
                          simp only [scanYears]
                          rw [nonWordOpt_prevAt, hafter, if_pos hcond]
                        have hcond' := hcond
                        simp only [Bool.and_eq_true] at hcond'
                        obtain ⟨⟨⟨⟨hyh, hc'⟩, hd'⟩, hbnd'⟩, haft'⟩ := hcond'
                        have hprev4 : prevAt s (k + 4) = some d := hsk3
                        have hno : ∀ j, k < j → j < k + 4 → yearAt s j = none := by
                          intro j hj1 hj2
                          apply yearAt_none_of_bnd
                          have hcases : j = k + 1 ∨ j = k + 2 ∨ j = k + 3 := by omega
                          rcases hcases with rfl | rfl | rfl
                          · show nonWordOpt s[k]? = false
                            rw [hsk]
                            simp [nonWordOpt,
                              isWordChar_of_isDig a (yearHead_digits a b hyh).1]
                          · show nonWordOpt s[k + 1]? = false
                            rw [hsk1]
                            simp [nonWordOpt,
                              isWordChar_of_isDig b (yearHead_digits a b hyh).2]
                          · show nonWordOpt s[k + 2]? = false
                            rw [hsk2]
                            simp [nonWordOpt, isWordChar_of_isDig c hc']
                        have hIH : n ∈ scanYears (some d) rest2 ↔
                            ∃ j, k + 4 ≤ j ∧ yearAt s j = some n := by
                          have hthis := ih (k + 4) (by omega) n
                          rw [hprev4, ← hrest3] at hthis
                          exact hthis
                        rw [hstep, List.mem_cons]
                        constructor
                        · rintro (rfl | hmem)
                          · exact ⟨k, le_refl k, hyk⟩
                          · obtain ⟨j, hj, hy⟩ := hIH.mp hmem
                            exact ⟨j, by omega, hy⟩
                        · rintro ⟨j, hj, hy⟩
                          rcases Nat.eq_or_lt_of_le hj with rfl | hjk
                          · left
                            rw [hyk] at hy
                            exact (Option.some.inj hy).symm
                          · rcases Nat.lt_or_ge j (k + 4) with hlt | hge
                            · rw [hno j hjk hlt] at hy
                              cases hy
                            · exact Or.inr (hIH.mpr ⟨j, hge, hy⟩)
                      · have hyk : yearAt s k = none := by
                          rw [hcondeq, if_neg hcond]
                        have hstep : scanYears (prevAt s k) (a :: b :: c :: d :: rest2)
                            = scanYears (some a) (b :: c :: d :: rest2) := by
                          simp only [scanYears]
                          rw [nonWordOpt_prevAt, hafter, if_neg hcond]
                        rw [hstep, show (b :: c :: d :: rest2) = s.drop (k + 1) from hrest,
                          ← hprev1, ih (k + 1) (by omega) n]
                        exact (hshift n hyk).symm

theorem findYears_iff (s : List Char) (n : ℕ) :
    n ∈ findYears s ↔ ∃ j, yearAt s j = some n := by
  have h := scanYears_mem_iff s s.length 0 (by omega) n
  simpa [findYears, prevAt] using h

theorem specYearToken_iff (s : List Char) (n : ℕ) :
    specYearToken s n ↔ ∃ j, yearAt s j = some n := by
  constructor
  · rintro ⟨h19, h20, i, a, b, c, d, h0, h1, h2, h3, da, db, dc, dd, hval, hbnd, haft⟩
    have hba := digit_bounds a da
    have hbb := digit_bounds b db
    have hbc := digit_bounds c dc
    have hbd := digit_bounds d dd
    have hones : (digitVal a = 1 ∧ digitVal b = 9)
        ∨ (digitVal a = 2 ∧ digitVal b = 0) := by
      simp only [yearVal, digitVal] at hval
      simp only [digitVal]
      omega
    have hyh : yearHead a b = true := by
      rcases hones with ⟨hA, hB⟩ | ⟨hA, hB⟩
      · rw [char_digit_eq a da 1 hA, char_digit_eq b db 9 hB]; decide
      · rw [char_digit_eq a da 2 hA, char_digit_eq b db 0 hB]; decide
    exact ⟨i, (yearAt_eq_some_iff s i n).mpr
      ⟨a, b, c, d, h0, h1, h2, h3, hyh, dc, dd, hbnd, haft, hval⟩⟩
  · rintro ⟨j, hj⟩
    rw [yearAt_eq_some_iff] at hj
    obtain ⟨a, b, c, d, h0, h1, h2, h3, hyh, hc, hd, hb, ha, hval⟩ := hj
    have hdig := yearHead_digits a b hyh
    have hbnds := yearVal_bounds a b c d hyh hc hd
    exact ⟨by omega, by omega, j, a, b, c, d, h0, h1, h2, h3,
      hdig.1, hdig.2, hc, hd, hval, hb, ha⟩

theorem mem_sortedDedup (l : List ℕ) (n : ℕ) : n ∈ sortedDedup l ↔ n ∈ l := by
  rw [sortedDedup, (List.perm_insertionSort _ _).mem_iff, List.mem_dedup]

theorem sorted_sortedDedup (l : List ℕ) : (sortedDedup l).Sorted (· ≤ ·) :=
  List.sorted_insertionSort _ _

theorem nodup_sortedDedup (l : List ℕ) : (sortedDedup l).Nodup :=
  (List.perm_insertionSort _ _).nodup_iff.mpr (List.nodup_dedup l)

theorem yearsOf_ne_nil (s : List Char) (p : Option ℕ) (ty : ℕ) :
    yearsOf s p ty ≠ [] := by
  by_cases h : sortedDedup (findYears s) = [] <;> simp [yearsOf, h]

theorem mem_yearsOf_of_find (s : List Char) (p : Option ℕ) (ty : ℕ) (n : ℕ)
    (h : n ∈ findYears s) : n ∈ yearsOf s p ty := by
  have h1 : n ∈ sortedDedup (findYears s) := (mem_sortedDedup _ _).mpr h
  have h2 : sortedDedup (findYears s) ≠ [] := by
    intro he
    rw [he] at h1
    cases h1
  unfold yearsOf
  rw [if_neg h2]
  exact h1

/-- C5: the detected fiscal-year list is sorted ascending and duplicate-free;
whenever the text contains at least one 4-digit year token in 1900–2099, its
members are exactly those tokens; and when the text contains none, it is the
singleton of the detected period's year or, lacking a period, the current
calendar year. -/
theorem spec2proof_C5_year_detection (s : List Char) (p : Option ℕ) (ty : ℕ) :
    (yearsOf s p ty).Sorted (· ≤ ·) ∧ (yearsOf s p ty).Nodup ∧
    ((∃ n0, specYearToken s n0) →
      ∀ n, n ∈ yearsOf s p ty ↔ specYearToken s n) ∧
    ((∀ n, ¬ specYearToken s n) → yearsOf s p ty = [fallbackYear p ty]) := by
  refine ⟨?_, ?_, ?_, ?_⟩
  · by_cases h : sortedDedup (findYears s) = [] <;>
      simp [yearsOf, h, sorted_sortedDedup]
  · by_cases h : sortedDedup (findYears s) = [] <;>
      simp [yearsOf, h, nodup_sortedDedup]
  · rintro ⟨n0, hn0⟩ n
    have hfind : n0 ∈ findYears s := by
      rw [findYears_iff]
      exact (specYearToken_iff s n0).mp hn0
    have h2 : sortedDedup (findYears s) ≠ [] := by
      intro he
      have := (mem_sortedDedup _ n0).mpr hfind
      rw [he] at this
      cases this
    unfold yearsOf
    rw [if_neg h2, mem_sortedDedup, findYears_iff]
    exact (specYearToken_iff s n).symm
  · intro hnone
    have hfind : findYears s = [] := by
      cases hf : findYears s with
      | nil => rfl
      | cons x xs =>
          exfalso
          have hx : x ∈ findYears s := by rw [hf]; exact List.mem_cons_self x xs
          rw [findYears_iff] at hx
          exact hnone x ((specYearToken_iff s x).mpr hx)
    unfold yearsOf
    rw [if_pos (by rw [hfind]; rfl)]

theorem spec2proof_C5_witness :
    (yearsOf ("FY 2022 and 2023".data) none 1999).Sorted (· ≤ ·) ∧
    (∀ n, n ∈ yearsOf ("FY 2022 and 2023".data) none 1999 ↔
      specYearToken ("FY 2022 and 2023".data) n) :=
  ⟨(spec2proof_C5_year_detection ("FY 2022 and 2023".data) none 1999).1,
   (spec2proof_C5_year_detection ("FY 2022 and 2023".data) none 1999).2.2.1
     ⟨2022, by decide, by decide, 3, '2', '0', '2', '2', by decide, by decide,
       by decide, by decide, by decide, by decide, by decide, by decide,
       by decide, by decide, by decide⟩⟩

theorem yearAt_append_left (s t : List Char) (i n : ℕ)
    (h : yearAt s i = some n) : yearAt (s ++ '\n' :: t) i = some n := by
  rw [yearAt_eq_some_iff] at h ⊢
  obtain ⟨a, b, c, d, h0, h1, h2, h3, hyh, hc, hd, hb, ha, hval⟩ := h
  have hlen : i + 3 < s.length := by
    rcases List.getElem?_eq_some.mp h3 with ⟨hlt, _⟩
    exact hlt
  refine ⟨a, b, c, d, ?_, ?_, ?_, ?_, hyh, hc, hd, ?_, ?_, hval⟩
  · rw [List.getElem?_append_left (by omega)]; exact h0
  · rw [List.getElem?_append_left (by omega)]; exact h1
  · rw [List.getElem?_append_left (by omega)]; exact h2
  · rw [List.getElem?_append_left (by omega)]; exact h3
  · cases i with
    | zero => rfl
    | succ k =>
        show nonWordOpt (s ++ '\n' :: t)[k]? = true
        rw [List.getElem?_append_left (by omega)]
        exact hb
  · cases h4 : s[i + 4]? with
    | some q =>
        have h4lt : i + 4 < s.length := by
          rcases List.getElem?_eq_some.mp h4 with ⟨hlt, _⟩
          exact hlt
        rw [List.getElem?_append_left h4lt, h4]
        rw [h4] at ha
        exact ha
    | none =>
        have hge : s.length ≤ i + 4 := List.getElem?_eq_none_iff.mp h4
        have heq : s.length = i + 4 := by omega
        rw [List.getElem?_append_right (by omega)]
        rw [show i + 4 - s.length = 0 by omega, List.getElem?_cons_zero]
        rfl

theorem yearAt_append_right (s t : List Char) (j n : ℕ)
    (h : yearAt t j = some n) :
    yearAt (s ++ '\n' :: t) (s.length + 1 + j) = some n := by
  rw [yearAt_eq_some_iff] at h ⊢
  obtain ⟨a, b, c, d, h0, h1, h2, h3, hyh, hc, hd, hb, ha, hval⟩ := h
  have hidx : ∀ (x : ℕ), (s ++ '\n' :: t)[s.length + 1 + j + x]? = t[j + x]? := by
    intro x
    rw [List.getElem?_append_right (by omega),
      show s.length + 1 + j + x - s.length = (j + x) + 1 by omega,
      List.getElem?_cons_succ]
  refine ⟨a, b, c, d, ?_, ?_, ?_, ?_, hyh, hc, hd, ?_, ?_, hval⟩
  · have hi := hidx 0
    simpa using hi.trans (by simpa using h0)
  · exact (hidx 1).trans h1
  · exact (hidx 2).trans h2
  · exact (hidx 3).trans h3
  · rw [show s.length + 1 + j = (s.length + j) + 1 by omega]
    show nonWordOpt (s ++ '\n' :: t)[s.length + j]? = true
    cases j with
    | zero =>
        rw [show s.length + 0 = s.length by omega,
          List.getElem?_append_right (le_refl _), Nat.sub_self,
          List.getElem?_cons_zero]
        rfl
    | succ j' =>
        rw [List.getElem?_append_right (by omega),
          show s.length + (j' + 1) - s.length = j' + 1 by omega,
          List.getElem?_cons_succ]
        exact hb
  · rw [hidx 4]
    exact ha

theorem exists_yearAt_join (page : List Char) (n j : ℕ)
    (hj : yearAt page j = some n) :
    ∀ pages : List (List Char), page ∈ pages →
      ∃ i, yearAt (joinPages pages) i = some n := by
  intro pages
  induction pages with
  | nil => intro hp; cases hp
  | cons q qs ih =>
      intro hp
      rcases List.mem_cons.mp hp with rfl | hmem
      · cases qs with
        | nil => exact ⟨j, hj⟩
        | cons q2 qs2 =>
            exact ⟨j, yearAt_append_left page (joinPages (q2 :: qs2)) j n hj⟩
      · cases qs with
        | nil => cases hmem
        | cons q2 qs2 =>
            obtain ⟨i, hi⟩ := ih hmem
            exact ⟨q.length + 1 + i,
              yearAt_append_right q (joinPages (q2 :: qs2)) i n hi⟩

theorem findYears_page_sub (pages : List (List Char)) (page : List Char)
    (hp : page ∈ pages) (n : ℕ) (h : n ∈ findYears page) :
    n ∈ findYears (joinPages pages) := by
  rw [findYears_iff] at h ⊢
  obtain ⟨j, hj⟩ := h
  exact exists_yearAt_join page n j hj pages hp

theorem map_fst_rawSet (raw : Raw) (y : ℕ) (k : String) (v : ℚ)
    (h : y ∈ raw.map Prod.fst) :
    (rawSet raw y k v).map Prod.fst = raw.map Prod.fst := by
  induction raw with
  | nil => cases h
  | cons yf rest ih =>
      obtain ⟨y0, f0⟩ := yf
      by_cases hy : y0 = y
      · subst hy
        simp [rawSet]
      · rcases List.mem_cons.mp h with h1 | h1
        · exact absurd h1.symm hy
        · simp [rawSet, hy, ih h1]

theorem processLine_keys (env : Env) (years : List ℕ) (ctx : ℕ) (raw : Raw)
    (line : List Char)
    (hmax : maxL years ∈ raw.map Prod.fst) (hmin : minL years ∈ raw.map Prod.fst)
    (hctx : ctx ∈ raw.map Prod.fst) :
    (processLine env years ctx raw line).map Prod.fst = raw.map Prod.fst := by
  cases hres : lineResolve env line with
  | none => simp [processLine, hres]
  | some cv =>
      simp only [processLine, hres]
      by_cases hc : 2 ≤ cv.2.length ∧ 2 ≤ years.length
      · rw [if_pos hc]
        have hinner : (rawSet raw (maxL years) cv.1
            (cv.2.getD (cv.2.length - 2) 0)).map Prod.fst = raw.map Prod.fst :=
          map_fst_rawSet _ _ _ _ hmax
        rw [map_fst_rawSet _ _ _ _ (by rw [hinner]; exact hmin), hinner]
      · rw [if_neg hc]
        exact map_fst_rawSet _ _ _ _ hctx

theorem foldl_processLine_keys (env : Env) (years : List ℕ) (ctx : ℕ)
    (lines : List (List Char)) :
    ∀ raw : Raw, maxL years ∈ raw.map Prod.fst → minL years ∈ raw.map Prod.fst →
      ctx ∈ raw.map Prod.fst →
      (lines.foldl (processLine env years ctx) raw).map Prod.fst
        = raw.map Prod.fst := by
  induction lines with
  | nil => intro raw _ _ _; rfl
  | cons l ls ih =>
      intro raw hmax hmin hctx
      rw [List.foldl_cons]
      have hk := processLine_keys env years ctx raw l hmax hmin hctx
      rw [ih _ (by rw [hk]; exact hmax) (by rw [hk]; exact hmin)
        (by rw [hk]; exact hctx), hk]

/-- C10: the key set of the returned year-bucket map is exactly the detected
year list: the map starts with one (possibly empty) bucket per detected year,
and every write targets `max(years)`, `min(years)` or the current year
context, all members of the detected set. -/
theorem spec2proof_C10_bucket_keys (env : Env) (pages : List (List Char))
    (p : Option ℕ) (ty : ℕ) :
    (parseBuckets env pages p ty).map Prod.fst
      = yearsOf (joinPages pages) p ty := by
  have hne : yearsOf (joinPages pages) p ty ≠ [] := yearsOf_ne_nil _ _ _
  have hmax : maxL (yearsOf (joinPages pages) p ty)
      ∈ yearsOf (joinPages pages) p ty := maxL_mem _ hne
  have hmin : minL (yearsOf (joinPages pages) p ty)
      ∈ yearsOf (joinPages pages) p ty := minL_mem _ hne
  have main : ∀ (l : List (List Char)), (∀ q ∈ l, q ∈ pages) →
      ∀ st : ℕ × Raw, st.1 ∈ yearsOf (joinPages pages) p ty →
        st.2.map Prod.fst = yearsOf (joinPages pages) p ty →
        ((l.foldl (processPage env (yearsOf (joinPages pages) p ty)) st).2).map
            Prod.fst = yearsOf (joinPages pages) p ty := by
    intro l
    induction l with
    | nil => intro _ st _ hraw; exact hraw
    | cons q qs ih =>
        intro hsub st hctx hraw
        rw [List.foldl_cons]
        apply ih (fun q' h' => hsub q' (List.mem_cons_of_mem q h'))
        · show (if findYears q = [] then st.1 else maxL (findYears q))
            ∈ yearsOf (joinPages pages) p ty
          split
          · exact hctx
          · next hpne =>
              exact mem_yearsOf_of_find _ _ _ _
                (findYears_page_sub pages q (hsub q (List.mem_cons_self q qs)) _
                  (maxL_mem _ hpne))
        · show ((splitLinesL q).foldl
              (processLine env (yearsOf (joinPages pages) p ty)
                (if findYears q = [] then st.1 else maxL (findYears q))) st.2).map
              Prod.fst = yearsOf (joinPages pages) p ty
          rw [foldl_processLine_keys _ _ _ _ st.2 (by rw [hraw]; exact hmax)
            (by rw [hraw]; exact hmin) ?hc, hraw]
          case hc =>
            rw [hraw]
            split
            · exact hctx
            · next hpne =>
                exact mem_yearsOf_of_find _ _ _ _
                  (findYears_page_sub pages q (hsub q (List.mem_cons_self q qs)) _
                    (maxL_mem _ hpne))
  have h0 : ((yearsOf (joinPages pages) p ty).map
      (fun y => (y, ([] : Flat)))).map Prod.fst
        = yearsOf (joinPages pages) p ty := by
    rw [List.map_map,
      show (Prod.fst ∘ fun y : ℕ => (y, ([] : Flat))) = id from rfl, List.map_id]
  exact main pages (fun q h => h) (maxL (yearsOf (joinPages pages) p ty),
    (yearsOf (joinPages pages) p ty).map (fun y => (y, ([] : Flat)))) hmax h0

end CashFlow
